import Mathlib

/-!
Verification of the capreolus training / sampling / extraction pipeline.

This file gives a shallow embedding, in Lean, of the parts of the capreolus
repository that the checked properties talk about:

* `capreolus/sampler/__init__.py` — `Sampler.prepare`, `Sampler.clean`,
  `TrainTripletSampler.generate_samples`, `PredSampler.generate_samples`;
* `capreolus/trainer/__init__.py` — `PytorchTrainer.load_loss_file`,
  `PytorchTrainer.fastforward_training`, the dev.best decisions of
  `PytorchTrainer.train` and of `TrecCheckpointCallback.on_epoch_end`;
* `capreolus/extractor/bertpassage.py` — `BertPassage.get_passages_for_doc`,
  `BertPassage.id2vec`;
* `capreolus/reranker/base.py` — `Reranker.save_weights`,
  `Reranker.load_weights`, `KerasModel.call`.

Python dicts are embedded as association lists (which preserve insertion
order, as Python dicts do); external collaborators (the tokenizer, the
pseudorandom choices, the scoring model) are parameters of the embedded
functions; fallible code returns `Except`.
-/

/-! ## Association-list helpers (embedding of Python dict operations) -/

/-- Lookup in an association list, first match wins (Python `d[k]` / `d.get(k)`). -/
def alookup {β : Type} : List (String × β) → String → Option β
  | [], _ => none
  | p :: rest, k => if p.1 = k then some p.2 else alookup rest k

/-- Lookup with a default (Python `d.get(k, dflt)`). -/
def alookupD {β : Type} (l : List (String × β)) (k : String) (dflt : β) : β :=
  (alookup l k).getD dflt

/-- Remove the entry for a key (Python `del d[k]`; dict keys are unique). -/
def eraseKey {β : Type} (l : List (String × β)) (k : String) : List (String × β) :=
  l.filter (fun p => ¬ p.1 = k)

theorem alookup_filter_key {β : Type} (P : String → Bool) (l : List (String × β)) (k : String) :
    alookup (l.filter (fun p => P p.1)) k = if P k then alookup l k else none := by
  induction l with
  | nil => simp [alookup]
  | cons p rest ih =>
    rw [List.filter_cons]
    by_cases hP : P p.1
    · rw [if_pos (by simpa using hP)]
      by_cases hk : p.1 = k
      · subst hk
        simp [alookup, hP]
      · simp only [alookup, hk, if_false]
        exact ih
    · rw [if_neg (by simpa using hP)]
      by_cases hk : p.1 = k
      · subst hk
        simp only [alookup, if_pos rfl]
        simp only [Bool.not_eq_true] at hP
        simp only [hP, Bool.false_eq_true, if_false] at ih ⊢
        exact ih
      · simp only [alookup, hk, if_false]
        exact ih

theorem alookup_eraseKey_ne {β : Type} (l : List (String × β)) (k q : String)
    (h : q ≠ k) : alookup (eraseKey l k) q = alookup l q := by
  have hq : alookup (l.filter (fun p => decide (¬ p.1 = k))) q
      = if decide (¬ q = k) then alookup l q else none :=
    alookup_filter_key (fun s => decide (¬ s = k)) l q
  simpa [eraseKey, h] using hq

/-! ## Sampler state (`capreolus/sampler/__init__.py`) -/

/-- The mappings a `Sampler` holds after `prepare` has run. -/
structure SamplerState where
  qid_to_docids : List (String × List String)
  qid_to_reldocs : List (String × List String)
  qid_to_negdocs : List (String × List String)
  total_samples : Nat
deriving DecidableEq

/-- `qrels[qid].get(docid, 0)`: the relevance grade of a (query, doc) pair. -/
def qrelsGrade (qrels : List (String × List (String × Int))) (qid docid : String) : Int :=
  alookupD ((alookup qrels qid).getD []) docid 0

/-- The part of `Sampler.prepare` before `self.clean()` is called: drop qids
missing from the qrels, then split each candidate list into relevant
(grade ≥ relevance_level) and non-relevant (grade < relevance_level) docs. -/
def prepareRaw (pool : List (String × List String))
    (qrels : List (String × List (String × Int))) (relevance_level : Int) : SamplerState :=
  let filtered := pool.filter (fun p => (alookup qrels p.1).isSome)
  { qid_to_docids := filtered
    qid_to_reldocs :=
      filtered.map (fun p => (p.1, p.2.filter (fun d => relevance_level ≤ qrelsGrade qrels p.1 d)))
    qid_to_negdocs :=
      filtered.map (fun p => (p.1, p.2.filter (fun d => qrelsGrade qrels p.1 d < relevance_level)))
    total_samples := 0 }

/-- The loop body of `Sampler.clean`: iterate over a snapshot of the keys,
accumulate `total_samples`, and delete every query that lacks a relevant or a
non-relevant doc. -/
def cleanPass : List String → SamplerState → Nat → SamplerState × Nat
  | [], st, total => (st, total)
  | qid :: rest, st, total =>
    let posdocs := (alookupD st.qid_to_reldocs qid []).length
    let negdocs := (alookupD st.qid_to_negdocs qid []).length
    if posdocs = 0 ∨ negdocs = 0 then
      cleanPass rest
        { st with
          qid_to_docids := eraseKey st.qid_to_docids qid
          qid_to_reldocs := eraseKey st.qid_to_reldocs qid
          qid_to_negdocs := eraseKey st.qid_to_negdocs qid }
        (total + posdocs * negdocs)
    else
      cleanPass rest st (total + posdocs * negdocs)

/-- `Sampler.clean`: the local `total_samples` starts at 1 and the loop runs
over `list(self.qid_to_docids.keys())`. -/
def clean (st : SamplerState) : SamplerState :=
  let r := cleanPass (st.qid_to_docids.map Prod.fst) st 1
  { r.1 with total_samples := r.2 }

/-- `Sampler.prepare`: build the three mappings, then run the cleaning pass. -/
def prepare (pool : List (String × List String))
    (qrels : List (String × List (String × Int))) (relevance_level : Int) : SamplerState :=
  clean (prepareRaw pool qrels relevance_level)

/-- The (qid, docid, label) instances enumerated over an association list of
candidates, one per pair, in pool order. -/
def pairInstances (l : List (String × List String)) (lbl : String → String → List Int) :
    List (String × String × List Int) :=
  l.bind (fun p => p.2.map (fun d => (p.1, d, lbl p.1 d)))

/-- `PredSampler.generate_samples`, as the sequence of (qid, docid, label)
requests it makes: one per pair of `self.qid_to_docids`, labeled `[0, 1]`
when the docid is in `self.qid_to_reldocs[qid]` and `[1, 0]` otherwise. -/
def predInstances (st : SamplerState) : List (String × String × List Int) :=
  pairInstances st.qid_to_docids
    (fun qid docid => if (alookupD st.qid_to_reldocs qid []).contains docid then [0, 1] else [1, 0])

/-- A query survives `Sampler.clean` iff it has a relevant and a non-relevant doc. -/
def keepQid (rel neg : List (String × List String)) (q : String) : Bool :=
  decide (¬ ((alookupD rel q []).length = 0 ∨ (alookupD neg q []).length = 0))

/-- The per-query contribution to `total_samples`: `posdocs * negdocs`. -/
def sampleContribution (rel neg : List (String × List String)) (q : String) : Nat :=
  (alookupD rel q []).length * (alookupD neg q []).length

theorem cleanPass_spec (keys : List String) : ∀ (st : SamplerState) (total : Nat),
    keys.Nodup →
    (cleanPass keys st total).1.qid_to_docids
        = st.qid_to_docids.filter
            (fun p => !(decide (p.1 ∈ keys)) || keepQid st.qid_to_reldocs st.qid_to_negdocs p.1)
      ∧ (cleanPass keys st total).1.qid_to_reldocs
        = st.qid_to_reldocs.filter
            (fun p => !(decide (p.1 ∈ keys)) || keepQid st.qid_to_reldocs st.qid_to_negdocs p.1)
      ∧ (cleanPass keys st total).1.qid_to_negdocs
        = st.qid_to_negdocs.filter
            (fun p => !(decide (p.1 ∈ keys)) || keepQid st.qid_to_reldocs st.qid_to_negdocs p.1)
      ∧ (cleanPass keys st total).2
        = total + (keys.map (sampleContribution st.qid_to_reldocs st.qid_to_negdocs)).sum := by
  induction keys with
  | nil =>
    intro st total _
    simp [cleanPass]
  | cons q rest ih =>
    intro st total hnd
    have hq : q ∉ rest := (List.nodup_cons.mp hnd).1
    have hrest : rest.Nodup := (List.nodup_cons.mp hnd).2
    by_cases hdrop : (alookupD st.qid_to_reldocs q []).length = 0
        ∨ (alookupD st.qid_to_negdocs q []).length = 0
    · -- the query is dropped: all three maps lose the key `q`
      have hstep : cleanPass (q :: rest) st total
          = cleanPass rest
              { st with
                qid_to_docids := eraseKey st.qid_to_docids q
                qid_to_reldocs := eraseKey st.qid_to_reldocs q
                qid_to_negdocs := eraseKey st.qid_to_negdocs q }
              (total + sampleContribution st.qid_to_reldocs st.qid_to_negdocs q) := by
        simp only [cleanPass, sampleContribution]
        rw [if_pos hdrop]
      set st2 : SamplerState :=
        { st with
          qid_to_docids := eraseKey st.qid_to_docids q
          qid_to_reldocs := eraseKey st.qid_to_reldocs q
          qid_to_negdocs := eraseKey st.qid_to_negdocs q } with hst2
      have hkeepq : keepQid st.qid_to_reldocs st.qid_to_negdocs q = false := by
        simp only [keepQid]
        rw [decide_eq_false_iff_not, not_not]
        exact hdrop
      have hlookrel : ∀ k, k ≠ q →
          alookupD st2.qid_to_reldocs k [] = alookupD st.qid_to_reldocs k [] := by
        intro k hk
        simp only [hst2, alookupD]
        rw [alookup_eraseKey_ne _ _ _ hk]
      have hlookneg : ∀ k, k ≠ q →
          alookupD st2.qid_to_negdocs k [] = alookupD st.qid_to_negdocs k [] := by
        intro k hk
        simp only [hst2, alookupD]
        rw [alookup_eraseKey_ne _ _ _ hk]
      have hkeep2 : ∀ k, k ≠ q →
          keepQid st2.qid_to_reldocs st2.qid_to_negdocs k
            = keepQid st.qid_to_reldocs st.qid_to_negdocs k := by
        intro k hk
        simp only [keepQid, hlookrel k hk, hlookneg k hk]
      have hcontrib2 : ∀ k, k ≠ q →
          sampleContribution st2.qid_to_reldocs st2.qid_to_negdocs k
            = sampleContribution st.qid_to_reldocs st.qid_to_negdocs k := by
        intro k hk
        simp only [sampleContribution, hlookrel k hk, hlookneg k hk]
      obtain ⟨ihd, ihr, ihn, iht⟩ :=
        ih st2 (total + sampleContribution st.qid_to_reldocs st.qid_to_negdocs q) hrest
      have hfilter : ∀ (m : List (String × List String)),
          (eraseKey m q).filter
              (fun p => !(decide (p.1 ∈ rest)) || keepQid st2.qid_to_reldocs st2.qid_to_negdocs p.1)
            = m.filter
              (fun p => !(decide (p.1 ∈ q :: rest)) || keepQid st.qid_to_reldocs st.qid_to_negdocs p.1) := by
        intro m
        rw [eraseKey, List.filter_filter]
        apply List.filter_congr
        intro p _
        by_cases hk : p.1 = q
        · simp [hk, hkeepq]
        · simp [hk, hkeep2 p.1 hk, hq]
      refine ⟨?_, ?_, ?_, ?_⟩
      · rw [hstep, ihd]; exact hfilter st.qid_to_docids
      · rw [hstep, ihr]; exact hfilter st.qid_to_reldocs
      · rw [hstep, ihn]; exact hfilter st.qid_to_negdocs
      · rw [hstep, iht, List.map_cons, List.sum_cons]
        have hmap : rest.map (sampleContribution st2.qid_to_reldocs st2.qid_to_negdocs)
            = rest.map (sampleContribution st.qid_to_reldocs st.qid_to_negdocs) := by
          apply List.map_congr_left
          intro k hk
          exact hcontrib2 k (fun he => hq (he ▸ hk))
        rw [hmap]
        omega
    · -- the query is kept: the state is unchanged by this step
      have hstep : cleanPass (q :: rest) st total
          = cleanPass rest st
              (total + sampleContribution st.qid_to_reldocs st.qid_to_negdocs q) := by
        simp only [cleanPass, sampleContribution]
        rw [if_neg hdrop]
      have hkeepq : keepQid st.qid_to_reldocs st.qid_to_negdocs q = true := by
        simp only [keepQid, decide_eq_true_eq]
        exact hdrop
      obtain ⟨ihd, ihr, ihn, iht⟩ :=
        ih st (total + sampleContribution st.qid_to_reldocs st.qid_to_negdocs q) hrest
      have hfilter : ∀ (m : List (String × List String)),
          m.filter
              (fun p => !(decide (p.1 ∈ rest)) || keepQid st.qid_to_reldocs st.qid_to_negdocs p.1)
            = m.filter
              (fun p => !(decide (p.1 ∈ q :: rest)) || keepQid st.qid_to_reldocs st.qid_to_negdocs p.1) := by
        intro m
        apply List.filter_congr
        intro p _
        by_cases hk : p.1 = q
        · simp [hk, hkeepq]
        · simp [hk]
      refine ⟨?_, ?_, ?_, ?_⟩
      · rw [hstep, ihd]; exact hfilter st.qid_to_docids
      · rw [hstep, ihr]; exact hfilter st.qid_to_reldocs
      · rw [hstep, ihn]; exact hfilter st.qid_to_negdocs
      · rw [hstep, iht, List.map_cons, List.sum_cons]
        omega

theorem map_fst_filter_key {β : Type} (P : String → Bool) (l : List (String × β)) :
    (l.filter (fun p => P p.1)).map Prod.fst = (l.map Prod.fst).filter P := by
  induction l with
  | nil => rfl
  | cons p rest ih =>
    rw [List.map_cons, List.filter_cons, List.filter_cons]
    by_cases hP : P p.1
    · simp only [hP, if_true, List.map_cons, ih]
    · simp only [hP, Bool.false_eq_true, if_false, ih]

theorem sum_map_filter_of_zero (f : String → Nat) (P : String → Bool) (l : List String)
    (h : ∀ q ∈ l, P q = false → f q = 0) :
    ((l.filter P).map f).sum = (l.map f).sum := by
  induction l with
  | nil => rfl
  | cons q rest ih =>
    have hrest : ((rest.filter P).map f).sum = (rest.map f).sum :=
      ih (fun x hx => h x (List.mem_cons_of_mem q hx))
    rw [List.filter_cons]
    by_cases hP : P q
    · simp only [hP, if_true, List.map_cons, List.sum_cons, hrest]
    · simp only [hP, Bool.false_eq_true, if_false, hrest, List.map_cons, List.sum_cons,
        h q (List.mem_cons_self q rest) (Bool.not_eq_true _ ▸ hP), Nat.zero_add]

/-- C7: after `Sampler.prepare` (which runs `clean`), every retained query has
at least one relevant and at least one non-relevant candidate, and
`total_samples` is 1 plus the sum over the retained queries of
|relevant docs| * |non-relevant docs|. -/
theorem prepare_clean_invariant (pool : List (String × List String))
    (qrels : List (String × List (String × Int))) (lvl : Int)
    (hk : (pool.map Prod.fst).Nodup) :
    (∀ q ∈ (prepare pool qrels lvl).qid_to_docids.map Prod.fst,
      1 ≤ (alookupD (prepare pool qrels lvl).qid_to_reldocs q []).length
        ∧ 1 ≤ (alookupD (prepare pool qrels lvl).qid_to_negdocs q []).length)
    ∧ (prepare pool qrels lvl).total_samples
        = 1 + ((prepare pool qrels lvl).qid_to_docids.map
            (fun p => (alookupD (prepare pool qrels lvl).qid_to_reldocs p.1 []).length
              * (alookupD (prepare pool qrels lvl).qid_to_negdocs p.1 []).length)).sum := by
  classical
  set raw := prepareRaw pool qrels lvl with hraw
  set keys := raw.qid_to_docids.map Prod.fst with hkeys
  have hnd : keys.Nodup := by
    have hsub : raw.qid_to_docids.Sublist pool := by
      rw [hraw]
      exact List.filter_sublist pool
    exact hk.sublist (hsub.map Prod.fst)
  obtain ⟨hcd, hcr, hcn, hct⟩ := cleanPass_spec keys raw 1 hnd
  set P : String → Bool :=
    fun k => !(decide (k ∈ keys)) || keepQid raw.qid_to_reldocs raw.qid_to_negdocs k with hPdef
  have hpd : (prepare pool qrels lvl).qid_to_docids = (cleanPass keys raw 1).1.qid_to_docids := rfl
  have hpr : (prepare pool qrels lvl).qid_to_reldocs = (cleanPass keys raw 1).1.qid_to_reldocs := rfl
  have hpn : (prepare pool qrels lvl).qid_to_negdocs = (cleanPass keys raw 1).1.qid_to_negdocs := rfl
  have hpt : (prepare pool qrels lvl).total_samples = (cleanPass keys raw 1).2 := rfl
  have hlookr : ∀ q, P q = true →
      alookupD (prepare pool qrels lvl).qid_to_reldocs q [] = alookupD raw.qid_to_reldocs q [] := by
    intro q hPq
    rw [hpr, hcr]
    simp only [alookupD]
    rw [alookup_filter_key P raw.qid_to_reldocs q, if_pos hPq]
  have hlookn : ∀ q, P q = true →
      alookupD (prepare pool qrels lvl).qid_to_negdocs q [] = alookupD raw.qid_to_negdocs q [] := by
    intro q hPq
    rw [hpn, hcn]
    simp only [alookupD]
    rw [alookup_filter_key P raw.qid_to_negdocs q, if_pos hPq]
  have hmem : ∀ q ∈ (prepare pool qrels lvl).qid_to_docids.map Prod.fst, q ∈ keys ∧ P q = true := by
    intro q hqmem
    rw [hpd, hcd, map_fst_filter_key P raw.qid_to_docids, List.mem_filter] at hqmem
    exact ⟨hqmem.1, hqmem.2⟩
  have hkeep : ∀ q ∈ (prepare pool qrels lvl).qid_to_docids.map Prod.fst,
      keepQid raw.qid_to_reldocs raw.qid_to_negdocs q = true := by
    intro q hqmem
    obtain ⟨hin, hPq⟩ := hmem q hqmem
    rw [hPdef] at hPq
    simp only [hin, decide_True, Bool.not_true, Bool.false_or] at hPq
    exact hPq
  constructor
  · intro q hqmem
    have hkq := hkeep q hqmem
    simp only [keepQid, decide_eq_true_eq, not_or] at hkq
    rw [hlookr q (hmem q hqmem).2, hlookn q (hmem q hqmem).2]
    exact ⟨Nat.one_le_iff_ne_zero.mpr hkq.1, Nat.one_le_iff_ne_zero.mpr hkq.2⟩
  · rw [hpt, hct]
    congr 1
    symm
    have hcongr : (prepare pool qrels lvl).qid_to_docids.map
          (fun p => (alookupD (prepare pool qrels lvl).qid_to_reldocs p.1 []).length
            * (alookupD (prepare pool qrels lvl).qid_to_negdocs p.1 []).length)
        = (prepare pool qrels lvl).qid_to_docids.map
          (fun p => sampleContribution raw.qid_to_reldocs raw.qid_to_negdocs p.1) := by
      apply List.map_congr_left
      intro p hp
      have hPp : P p.1 = true := by
        have : p.1 ∈ (prepare pool qrels lvl).qid_to_docids.map Prod.fst :=
          List.mem_map_of_mem Prod.fst hp
        exact (hmem p.1 this).2
      rw [sampleContribution, hlookr p.1 hPp, hlookn p.1 hPp]
    rw [hcongr]
    have hmapfst : (prepare pool qrels lvl).qid_to_docids.map
          (fun p => sampleContribution raw.qid_to_reldocs raw.qid_to_negdocs p.1)
        = ((prepare pool qrels lvl).qid_to_docids.map Prod.fst).map
            (sampleContribution raw.qid_to_reldocs raw.qid_to_negdocs) := by
      rw [List.map_map]
      rfl
    rw [hmapfst, hpd, hcd, map_fst_filter_key P raw.qid_to_docids]
    apply sum_map_filter_of_zero
    intro q hqk hPq
    rw [hPdef] at hPq
    simp only [hqk, decide_True, Bool.not_true, Bool.false_or] at hPq
    simp only [keepQid, decide_eq_false_iff_not, not_not] at hPq
    rcases hPq with h0 | h0 <;> simp [sampleContribution, h0]

/-- Witness for C7 at a concrete pool and qrels. -/
theorem prepare_clean_invariant_witness :
    (∀ q ∈ (prepare [("q1", ["d1", "d2"])] [("q1", [("d1", 1)])] 1).qid_to_docids.map Prod.fst,
      1 ≤ (alookupD (prepare [("q1", ["d1", "d2"])] [("q1", [("d1", 1)])] 1).qid_to_reldocs q []).length
        ∧ 1 ≤ (alookupD (prepare [("q1", ["d1", "d2"])] [("q1", [("d1", 1)])] 1).qid_to_negdocs q []).length)
    ∧ (prepare [("q1", ["d1", "d2"])] [("q1", [("d1", 1)])] 1).total_samples
        = 1 + ((prepare [("q1", ["d1", "d2"])] [("q1", [("d1", 1)])] 1).qid_to_docids.map
            (fun p => (alookupD (prepare [("q1", ["d1", "d2"])] [("q1", [("d1", 1)])] 1).qid_to_reldocs p.1 []).length
              * (alookupD (prepare [("q1", ["d1", "d2"])] [("q1", [("d1", 1)])] 1).qid_to_negdocs p.1 []).length)).sum :=
  prepare_clean_invariant [("q1", ["d1", "d2"])] [("q1", [("d1", 1)])] 1 (by decide)

theorem alookup_mem {β : Type} (l : List (String × β)) (q : String) (v : β)
    (h : alookup l q = some v) : (q, v) ∈ l := by
  induction l with
  | nil => simp [alookup] at h
  | cons p rest ih =>
    rw [alookup] at h
    by_cases hp : p.1 = q
    · rw [if_pos hp] at h
      have hv : p.2 = v := Option.some.inj h
      have hpe : p = (q, v) := by
        obtain ⟨p1, p2⟩ := p
        simp only at hp hv
        rw [hp, hv]
      rw [← hpe]
      exact List.mem_cons_self p rest
    · rw [if_neg hp] at h
      exact List.mem_cons_of_mem p (ih h)

theorem mem_keys_of_alookup {β : Type} (l : List (String × β)) (q : String) (v : β)
    (h : alookup l q = some v) : q ∈ l.map Prod.fst := by
  exact List.mem_map_of_mem Prod.fst (alookup_mem l q v h)

theorem countP_single_of_nodup (ds : List String) (d : String) (hnd : ds.Nodup) (hm : d ∈ ds) :
    ds.countP (fun x => decide (x = d)) = 1 := by
  induction ds with
  | nil => simp at hm
  | cons x rest ih =>
    rw [List.countP_cons]
    rcases List.mem_cons.mp hm with hx | hx
    · have hrest : rest.countP (fun x => decide (x = d)) = 0 := by
        rw [List.countP_eq_zero]
        intro a ha
        simp only [decide_eq_true_eq]
        intro had
        apply (List.nodup_cons.mp hnd).1
        rw [← hx, ← had]
        exact ha
      simp [hrest, ← hx]
    · have hxd : ¬ (x = d) := fun he => (List.nodup_cons.mp hnd).1 (he ▸ hx)
      rw [ih (List.nodup_cons.mp hnd).2 hx]
      simp [hxd]

theorem mem_pairInstances {i : String × String × List Int}
    (L : List (String × List String)) (lbl : String → String → List Int)
    (h : i ∈ pairInstances L lbl) :
    ∃ p ∈ L, i.1 = p.1 ∧ i.2.1 ∈ p.2 ∧ i.2.2 = lbl p.1 i.2.1 := by
  rw [pairInstances, List.mem_bind] at h
  obtain ⟨p, hp, hi⟩ := h
  rw [List.mem_map] at hi
  obtain ⟨d, hd, hi⟩ := hi
  subst hi
  exact ⟨p, hp, rfl, hd, rfl⟩

theorem countP_pairInstances (L : List (String × List String))
    (lbl : String → String → List Int)
    (hk : (L.map Prod.fst).Nodup) (hd : ∀ p ∈ L, p.2.Nodup)
    (q : String) (ds : List String) (halo : alookup L q = some ds)
    (d : String) (hdm : d ∈ ds) :
    (pairInstances L lbl).countP (fun i => decide (i.1 = q ∧ i.2.1 = d)) = 1 := by
  induction L with
  | nil => simp [alookup] at halo
  | cons p rest ih =>
    have happ : pairInstances (p :: rest) lbl
        = p.2.map (fun x => (p.1, x, lbl p.1 x)) ++ pairInstances rest lbl := rfl
    rw [happ, List.countP_append]
    by_cases hp : p.1 = q
    · have hds : p.2 = ds := by
        rw [alookup, if_pos hp] at halo
        exact Option.some.injEq _ _ ▸ halo
      have hhead : (p.2.map (fun x => (p.1, x, lbl p.1 x))).countP
          (fun i => decide (i.1 = q ∧ i.2.1 = d)) = 1 := by
        rw [List.countP_map]
        have hcongr : p.2.countP ((fun i => decide (i.1 = q ∧ i.2.1 = d))
              ∘ (fun x => (p.1, x, lbl p.1 x)))
            = p.2.countP (fun x => decide (x = d)) := by
          apply List.countP_congr
          intro x _
          simp [Function.comp, hp]
        rw [hcongr, hds]
        exact countP_single_of_nodup ds d (hds ▸ hd p (List.mem_cons_self p rest)) hdm
      have htail : (pairInstances rest lbl).countP
          (fun i => decide (i.1 = q ∧ i.2.1 = d)) = 0 := by
        rw [List.countP_eq_zero]
        intro i hi
        obtain ⟨r, hr, hi1, _, _⟩ := mem_pairInstances rest lbl hi
        simp only [decide_eq_true_eq, not_and]
        intro hiq
        exfalso
        have : q ∈ rest.map Prod.fst := hiq ▸ hi1 ▸ List.mem_map_of_mem Prod.fst hr
        exact (List.nodup_cons.mp (by simpa using hk)).1 (hp ▸ this)
      rw [hhead, htail]
    · have hhead : (p.2.map (fun x => (p.1, x, lbl p.1 x))).countP
          (fun i => decide (i.1 = q ∧ i.2.1 = d)) = 0 := by
        rw [List.countP_eq_zero]
        intro i hi
        rw [List.mem_map] at hi
        obtain ⟨x, _, hx⟩ := hi
        simp only [decide_eq_true_eq, not_and]
        intro hiq
        intro _
        apply hp
        rw [← hiq, ← hx]
      have halo2 : alookup rest q = some ds := by
        rw [alookup, if_neg hp] at halo
        exact halo
      rw [hhead, ih (by simpa using (List.nodup_cons.mp (by simpa using hk)).2)
        (fun r hr => hd r (List.mem_cons_of_mem p hr)) halo2, Nat.zero_add]

theorem cleanPass_docids_sublist (keys : List String) : ∀ (st : SamplerState) (total : Nat),
    ((cleanPass keys st total).1.qid_to_docids).Sublist st.qid_to_docids := by
  induction keys with
  | nil =>
    intro st total
    exact List.Sublist.refl _
  | cons q rest ih =>
    intro st total
    rw [cleanPass]
    by_cases hdrop : (alookupD st.qid_to_reldocs q []).length = 0
        ∨ (alookupD st.qid_to_negdocs q []).length = 0
    · rw [if_pos hdrop]
      exact (ih _ _).trans (List.filter_sublist _)
    · rw [if_neg hdrop]
      exact ih _ _

theorem prepare_docids_sublist (pool : List (String × List String))
    (qrels : List (String × List (String × Int))) (lvl : Int) :
    ((prepare pool qrels lvl).qid_to_docids).Sublist pool := by
  have h1 : (prepare pool qrels lvl).qid_to_docids
      = (cleanPass ((prepareRaw pool qrels lvl).qid_to_docids.map Prod.fst)
          (prepareRaw pool qrels lvl) 1).1.qid_to_docids := rfl
  rw [h1]
  exact (cleanPass_docids_sublist _ _ _).trans (List.filter_sublist pool)

/-- C2 (amended): `PredSampler.generate_samples` makes one finite pass over the
candidate pool *retained after `prepare`'s qrels filter and cleaning pass*:
exactly one instance per retained (query, doc) pair, labeled `[0, 1]` when the
doc is in the query's relevant set and `[1, 0]` otherwise, and no instance for
any other pair. -/
theorem pred_sampler_single_pass (pool : List (String × List String))
    (qrels : List (String × List (String × Int))) (lvl : Int)
    (hk : (pool.map Prod.fst).Nodup) (hd : ∀ p ∈ pool, p.2.Nodup) :
    (∀ q ds, alookup (prepare pool qrels lvl).qid_to_docids q = some ds → ∀ d ∈ ds,
      (predInstances (prepare pool qrels lvl)).countP
        (fun i => decide (i.1 = q ∧ i.2.1 = d)) = 1)
    ∧ (∀ i ∈ predInstances (prepare pool qrels lvl),
        (∃ p ∈ (prepare pool qrels lvl).qid_to_docids, i.1 = p.1 ∧ i.2.1 ∈ p.2)
        ∧ i.2.2 = (if (alookupD (prepare pool qrels lvl).qid_to_reldocs i.1 []).contains i.2.1
            then [0, 1] else [1, 0])) := by
  have hsub : ((prepare pool qrels lvl).qid_to_docids).Sublist pool :=
    prepare_docids_sublist pool qrels lvl
  have hknd : ((prepare pool qrels lvl).qid_to_docids.map Prod.fst).Nodup :=
    hk.sublist (hsub.map Prod.fst)
  have hdnd : ∀ p ∈ (prepare pool qrels lvl).qid_to_docids, p.2.Nodup :=
    fun p hp => hd p (hsub.subset hp)
  constructor
  · intro q ds halo d hdm
    exact countP_pairInstances (prepare pool qrels lvl).qid_to_docids _ hknd hdnd q ds halo d hdm
  · intro i hi
    obtain ⟨p, hp, h1, h2, h3⟩ := mem_pairInstances (prepare pool qrels lvl).qid_to_docids _ hi
    exact ⟨⟨p, hp, h1, h2⟩, by rw [h3, h1]⟩

/-- Witness for the amended C2 at a concrete pool and qrels. -/
theorem pred_sampler_single_pass_witness :
    (∀ q ds, alookup (prepare [("q1", ["d1", "d2"])] [("q1", [("d1", 1)])] 1).qid_to_docids q
        = some ds → ∀ d ∈ ds,
      (predInstances (prepare [("q1", ["d1", "d2"])] [("q1", [("d1", 1)])] 1)).countP
        (fun i => decide (i.1 = q ∧ i.2.1 = d)) = 1)
    ∧ (∀ i ∈ predInstances (prepare [("q1", ["d1", "d2"])] [("q1", [("d1", 1)])] 1),
        (∃ p ∈ (prepare [("q1", ["d1", "d2"])] [("q1", [("d1", 1)])] 1).qid_to_docids,
          i.1 = p.1 ∧ i.2.1 ∈ p.2)
        ∧ i.2.2 = (if (alookupD (prepare [("q1", ["d1", "d2"])] [("q1", [("d1", 1)])] 1).qid_to_reldocs
              i.1 []).contains i.2.1
            then [0, 1] else [1, 0])) :=
  pred_sampler_single_pass [("q1", ["d1", "d2"])] [("q1", [("d1", 1)])] 1 (by decide) (by decide)

/-- C2 counterexample: the pass is *not* over the original candidate pool
passed to `prepare`. The pool `{q1: [d1]}` with qrels `{q1: {d1: 1}}` has the
pair (q1, d1), but `PredSampler` emits no instance at all for it, because
`clean` (which `prepare` runs for every sampler, including `PredSampler`)
drops q1 for lack of a non-relevant candidate. -/
theorem pred_sampler_skips_cleaned_queries :
    predInstances (prepare [("q1", ["d1"])] [("q1", [("d1", 1)])] 1) = []
    ∧ ("q1", ["d1"]) ∈ ([("q1", ["d1"])] : List (String × List String))
    ∧ ¬ ((predInstances (prepare [("q1", ["d1"])] [("q1", [("d1", 1)])] 1)).countP
        (fun i => decide (i.1 = "q1" ∧ i.2.1 = "d1")) = 1) := by
  refine ⟨by decide, by decide, by decide⟩

/-! ## Missing-document policy (`MissingDocError` handling in the samplers) -/

/-- The payload of `MissingDocError(qid, docid)`. -/
structure MissingDoc where
  qid : String
  docid : String
deriving DecidableEq

/-- One round of `TrainTripletSampler.generate_samples` over the shuffled qids:
for each qid a positive and a negative doc are chosen (`random.choice`, modelled
by the `choosePos` / `chooseNeg` parameters) and the extractor is called; a
`MissingDocError` is caught, logged and skipped, and the loop continues with
the next query. -/
def tripletGenerateRound {α : Type} (extract : String → String → String → Except MissingDoc α)
    (choosePos chooseNeg : List String → String) (st : SamplerState) :
    List String → List α
  | [] => []
  | qid :: rest =>
    match extract qid (choosePos (alookupD st.qid_to_reldocs qid []))
        (chooseNeg (alookupD st.qid_to_negdocs qid [])) with
    | .ok d => d :: tripletGenerateRound extract choosePos chooseNeg st rest
    | .error _ => tripletGenerateRound extract choosePos chooseNeg st rest

/-- `PredSampler.generate_samples` run against an extractor: the generator
yields features in order until the first `MissingDocError`, which it re-raises
(second component), aborting the pass. -/
def predGenerate {α : Type} (extract : String → String → List Int → Except MissingDoc α) :
    List (String × String × List Int) → List α × Option MissingDoc
  | [] => ([], none)
  | i :: rest =>
    match extract i.1 i.2.1 i.2.2 with
    | .error e => ([], some e)
    | .ok d =>
      let r := predGenerate extract rest
      (d :: r.1, r.2)

/-- `PredSampler.generate_samples` over the instances of the sampler state. -/
def predGenerateSamples {α : Type} (extract : String → String → List Int → Except MissingDoc α)
    (st : SamplerState) : List α × Option MissingDoc :=
  predGenerate extract (predInstances st)

theorem predGenerate_spec {α : Type} (extract : String → String → List Int → Except MissingDoc α) :
    ∀ (l : List (String × String × List Int)),
    (((predGenerate extract l).2 = none) ↔ ∀ i ∈ l, ∃ d, extract i.1 i.2.1 i.2.2 = .ok d)
    ∧ ((predGenerate extract l).2 = none → (predGenerate extract l).1.length = l.length) := by
  intro l
  induction l with
  | nil => simp [predGenerate]
  | cons i rest ih =>
    rw [predGenerate]
    cases hx : extract i.1 i.2.1 i.2.2 with
    | error e =>
      simp only
      constructor
      · constructor
        · intro h
          exact absurd h (by simp)
        · intro h
          obtain ⟨d, hd⟩ := h i (List.mem_cons_self i rest)
          rw [hx] at hd
          exact absurd hd (by simp)
      · intro h
        exact absurd h (by simp)
    | ok d =>
      simp only
      constructor
      · constructor
        · intro h
          intro j hj
          rcases List.mem_cons.mp hj with hj | hj
          · exact ⟨d, hj ▸ hx⟩
          · exact (ih.1.mp h) j hj
        · intro h
          exact ih.1.mpr (fun j hj => h j (List.mem_cons_of_mem i hj))
      · intro h
        rw [List.length_cons, (ih.2 h), List.length_cons]

/-- C8: when the extractor signals `MissingDocError`, the training triplet
sampler skips the (query, pos, neg) triple and continues with the next query —
its output is exactly the successful extractions, never truncated at an error —
while `PredSampler` propagates: its pass completes without an exception iff
every (query, doc) instance extracts successfully, in which case no candidate
is omitted. -/
theorem missing_doc_error_policy {α : Type}
    (extract : String → String → String → Except MissingDoc α)
    (choosePos chooseNeg : List String → String) (st : SamplerState) (qids : List String)
    (extractP : String → String → List Int → Except MissingDoc α) (stp : SamplerState) :
    tripletGenerateRound extract choosePos chooseNeg st qids
      = qids.filterMap (fun qid => (extract qid (choosePos (alookupD st.qid_to_reldocs qid []))
          (chooseNeg (alookupD st.qid_to_negdocs qid []))).toOption)
    ∧ (((predGenerateSamples extractP stp).2 = none)
        ↔ ∀ i ∈ predInstances stp, ∃ d, extractP i.1 i.2.1 i.2.2 = .ok d)
    ∧ ((predGenerateSamples extractP stp).2 = none →
        (predGenerateSamples extractP stp).1.length = (predInstances stp).length) := by
  refine ⟨?_, (predGenerate_spec extractP (predInstances stp)).1,
    (predGenerate_spec extractP (predInstances stp)).2⟩
  induction qids with
  | nil => rfl
  | cons qid rest ih =>
    rw [tripletGenerateRound, List.filterMap_cons]
    cases hx : extract qid (choosePos (alookupD st.qid_to_reldocs qid []))
        (chooseNeg (alookupD st.qid_to_negdocs qid [])) with
    | error e => simpa [Except.toOption] using ih
    | ok d => simpa [Except.toOption] using ih

/-! ## Trainer (`capreolus/trainer/__init__.py`) -/

/-- `dev_best_metric = -np.inf` in `PytorchTrainer.train` (and
`self.best_metric = -np.inf` in `TrecCheckpointCallback`): `none` stands for
negative infinity, and `negInfLt best m` is Python's `m > best`. -/
def negInfLt : Option ℚ → ℚ → Bool
  | none, _ => true
  | some b, m => decide (b < m)

/-- The dev.best save decisions made by the validation blocks of
`PytorchTrainer.train`, given the sequence of `metrics[metric]` values of the
successive validation runs. The loop tests `metrics[metric] > dev_best_metric`
and calls `reranker.save_weights(dev_best_weight_fn, ...)` when the test holds;
`dev_best_metric` is not reassigned anywhere in the loop body. -/
def pytorchDevBestSaves : Option ℚ → List ℚ → List Bool
  | _, [] => []
  | best, m :: rest => negInfLt best m :: pytorchDevBestSaves best rest

/-- The dev.best save decisions made by `TrecCheckpointCallback.on_epoch_end`:
the callback tests `metrics["ndcg_cut_20"] > self.best_metric` and, when the
test holds, updates `self.best_metric` before saving. -/
def tfCallbackSaves : Option ℚ → List ℚ → List Bool
  | _, [] => []
  | best, m :: rest =>
    if negInfLt best m then true :: tfCallbackSaves (some m) rest
    else false :: tfCallbackSaves best rest

/-- C1 (code bug, `PytorchTrainer.train`): `dev_best_metric` is initialized to
-inf and never updated, so dev.best is rewritten on *every* validation whose
metric exceeds -inf — in particular on a validation that is strictly worse
than the best seen so far. With validation metrics 1 then 0,
`PytorchTrainer.train` saves twice, while the claimed behaviour (implemented
by `TrecCheckpointCallback.on_epoch_end`, which does update its running best)
saves only at the first. -/
theorem pytorch_dev_best_always_saved :
    (∀ ms : List ℚ, pytorchDevBestSaves none ms = List.replicate ms.length true)
    ∧ pytorchDevBestSaves none [1, 0] = [true, true]
    ∧ tfCallbackSaves none [1, 0] = [true, false]
    ∧ ¬ ((1 : ℚ) < 0) := by
  refine ⟨?_, by norm_num [pytorchDevBestSaves, negInfLt], by norm_num [tfCallbackSaves, negInfLt],
    by norm_num⟩
  intro ms
  induction ms with
  | nil => rfl
  | cons m rest ih => rw [pytorchDevBestSaves, ih, negInfLt, List.length_cons, List.replicate]

/-! ### Loss-history file and fast-forward -/

/-- One line of `info/loss.txt` as `load_loss_file` sees it: either blank
(after `strip()`) or an (iteration index, loss) entry. String tokenization is
the file format's concern; the index check is what is embedded. -/
inductive LossLine
  | blank
  | entry (idx : Int) (loss : ℚ)
deriving DecidableEq

/-- The loop of `PytorchTrainer.load_loss_file`: `lineidx` counts all lines
(blank lines included, as `enumerate` does), blank lines are skipped, and a
line whose recorded index differs from its line number raises
`IOError("malformed loss file ...")`. -/
def loadLossLines : Nat → List LossLine → Except String (List ℚ)
  | _, [] => .ok []
  | lineidx, .blank :: rest => loadLossLines (lineidx + 1) rest
  | lineidx, .entry i l :: rest =>
    if i = (lineidx : Int) then (loadLossLines (lineidx + 1) rest).map (fun ls => l :: ls)
    else .error "malformed loss file ... did two processes write to it?"

/-- `PytorchTrainer.load_loss_file`. -/
def load_loss_file (lines : List LossLine) : Except String (List ℚ) :=
  loadLossLines 0 lines

/-- The on-disk state `fastforward_training` inspects: whether the weights
directory exists, the loss file's lines (`none` when the file is absent), and
whether `reranker.load_weights(weights_path / f"{i}.p", optimizer)` succeeds
for a given iteration index. -/
structure CheckpointFS where
  weights_path_exists : Bool
  loss_file : Option (List LossLine)
  load_weights_ok : Int → Bool

/-- `PytorchTrainer.fastforward_training`. Returns the next iteration to run,
paired with the index of the checkpoint whose weights were loaded into the
model and optimizer (`none` when nothing was loaded and 0 is returned). -/
def fastforward_training (fs : CheckpointFS) : Nat × Option Int :=
  if fs.weights_path_exists then
    match fs.loss_file with
    | none => (0, none)
    | some lines =>
      match load_loss_file lines with
      | .error _ => (0, none)
      | .ok loss =>
        let last_loss_iteration : Int := (loss.length : Int) - 1
        if fs.load_weights_ok last_loss_iteration then
          ((last_loss_iteration + 1).toNat, some last_loss_iteration)
        else (0, none)
  else (0, none)

/-- A well-formed loss file for the given losses: line `i` holds entry `i`. -/
def lossEntriesFrom (n : Nat) : List ℚ → List LossLine
  | [] => []
  | l :: rest => .entry (n : Int) l :: lossEntriesFrom (n + 1) rest

/-- Loss-history file with consecutive entries `0 .. ls.length - 1`. -/
def lossEntries (ls : List ℚ) : List LossLine :=
  lossEntriesFrom 0 ls

/-- A loss-history file whose recorded indices skip 5 (0,1,2,3,4,6,7,8,9). -/
def lossEntriesSkipFive (a : ℚ) : List LossLine :=
  [.entry 0 a, .entry 1 a, .entry 2 a, .entry 3 a, .entry 4 a,
   .entry 6 a, .entry 7 a, .entry 8 a, .entry 9 a]

theorem loadLossLines_entriesFrom (ls : List ℚ) : ∀ n : Nat,
    loadLossLines n (lossEntriesFrom n ls) = .ok ls := by
  induction ls with
  | nil => intro n; rfl
  | cons l rest ih =>
    intro n
    rw [lossEntriesFrom, loadLossLines, if_pos rfl, ih (n + 1)]
    rfl

theorem load_loss_file_entries (ls : List ℚ) : load_loss_file (lossEntries ls) = .ok ls :=
  loadLossLines_entriesFrom ls 0

/-- C4: with a gap-free loss history 0..9 and a loadable weight file for
iteration 9, `fastforward_training` loads the iteration-9 weights and returns
next-iteration 10; with a loss history that skips index 5, or an absent
weights directory or loss file, or a failing weight load, it returns 0 and
loads nothing. -/
theorem fastforward_training_spec (ls ls4 : List ℚ) (ok1 ok2 ok3 ok4 : Int → Bool) (a : ℚ)
    (lf : Option (List LossLine)) (w : Bool)
    (h10 : ls.length = 10) (hok : ok1 9 = true)
    (h4len : ls4.length = 10) (hok4 : ok4 9 = false) :
    fastforward_training ⟨true, some (lossEntries ls), ok1⟩ = (10, some 9)
    ∧ fastforward_training ⟨true, some (lossEntriesSkipFive a), ok2⟩ = (0, none)
    ∧ fastforward_training ⟨false, lf, ok3⟩ = (0, none)
    ∧ fastforward_training ⟨w, none, ok3⟩ = (0, none)
    ∧ fastforward_training ⟨true, some (lossEntries ls4), ok4⟩ = (0, none) := by
  refine ⟨?_, ?_, ?_, ?_, ?_⟩
  · rw [fastforward_training]
    simp only [if_true, load_loss_file_entries ls, h10]
    norm_num [hok]
    rfl
  · rw [fastforward_training]
    simp only [if_true]
    have hskip : load_loss_file (lossEntriesSkipFive a)
        = .error "malformed loss file ... did two processes write to it?" := rfl
    rw [hskip]
  · rw [fastforward_training]
    simp
  · rw [fastforward_training]
    cases w <;> simp
  · rw [fastforward_training]
    simp only [if_true, load_loss_file_entries ls4, h4len]
    norm_num [hok4]

/-- Witness for C4 at concrete loss files. -/
theorem fastforward_training_spec_witness :
    fastforward_training ⟨true, some (lossEntries (List.replicate 10 0)), fun _ => true⟩
        = (10, some 9)
    ∧ fastforward_training ⟨true, some (lossEntriesSkipFive 0), fun _ => true⟩ = (0, none)
    ∧ fastforward_training ⟨false, none, fun _ => true⟩ = (0, none)
    ∧ fastforward_training ⟨true, none, fun _ => true⟩ = (0, none)
    ∧ fastforward_training ⟨true, some (lossEntries (List.replicate 10 0)), fun _ => false⟩
        = (0, none) :=
  fastforward_training_spec (List.replicate 10 0) (List.replicate 10 0)
    (fun _ => true) (fun _ => true) (fun _ => true) (fun _ => false) 0 none true
    (by decide) (by decide) (by decide) (by decide)

/-! ## Passage extraction (`BertPassage.get_passages_for_doc`) -/

/-- The iteration set of `for i in range(0, len(doc), stride)`:
`ceil(doclen / stride)` starts, spaced `stride` apart (so every element is
strictly below `doclen`). -/
def passageStarts (doclen stride : Nat) : List Nat :=
  List.range' 0 ((doclen + stride - 1) / stride) stride

/-- The loop body of `get_passages_for_doc`, including its guard
`if i >= len(doc): assert len(passages) > 0 ...; break` (which `range` makes
unreachable) and the window slice `doc[i : i + passagelen]` fed to the
tokenizer. -/
def passagesGo (tokenize : List String → List String) (passagelen : Nat) (doc : List String) :
    List Nat → List (List String) → Except String (List (List String))
  | [], acc => .ok acc
  | i :: rest, acc =>
    if doc.length ≤ i then
      if acc.isEmpty then .error "no passage can be built from empty document" else .ok acc
    else
      passagesGo tokenize passagelen doc rest (acc ++ [tokenize ((doc.drop i).take passagelen)])

/-- The sliding-window pass of `get_passages_for_doc` (`range` with step 0
raises `ValueError` in Python). -/
def buildPassages (tokenize : List String → List String) (passagelen stride : Nat)
    (doc : List String) : Except String (List (List String)) :=
  if stride = 0 then .error "range() arg 3 must not be zero"
  else passagesGo tokenize passagelen doc (passageStarts doc.length stride) []

/-- The list of real (window) passages a document yields. -/
def realPassages (tokenize : List String → List String) (passagelen stride : Nat)
    (doc : List String) : List (List String) :=
  (passageStarts doc.length stride).map (fun i => tokenize ((doc.drop i).take passagelen))

/-- The second half of `get_passages_for_doc`: `passages[0]` and
`passages[-1]` are kept and `numpassages - 2` interior passages sampled when
there are too many (`random.sample` raises `ValueError` on a negative count),
`["[PAD]"]` entries are appended when there are too few, and finally
`assert len(passages) == numpassages`. -/
def selectAndCheck (numpassages : Nat)
    (sample : Nat → List (List String) → List (List String))
    (passages : List (List String)) : Except String (List (List String)) :=
  let n_actual_passages := passages.length
  let final : Except String (List (List String)) :=
    if numpassages < n_actual_passages then
      if numpassages < 2 then .error "Sample larger than population or is negative"
      else .ok (passages.take 1
          ++ sample (numpassages - 2) ((passages.drop 1).dropLast)
          ++ passages.drop (n_actual_passages - 1))
    else .ok (passages ++ List.replicate (numpassages - n_actual_passages) ["[PAD]"])
  match final with
  | .error e => .error e
  | .ok fin =>
    if fin.length = numpassages then .ok fin
    else .error "assertion failed: len(passages) == self.config[numpassages]"

/-- `BertPassage.get_passages_for_doc`: slide the window, then subsample or
pad to exactly `numpassages`. -/
def get_passages_for_doc (tokenize : List String → List String)
    (numpassages passagelen stride : Nat)
    (sample : Nat → List (List String) → List (List String))
    (doc : List String) : Except String (List (List String)) :=
  match buildPassages tokenize passagelen stride doc with
  | .error e => .error e
  | .ok passages => selectAndCheck numpassages sample passages

theorem passageStarts_lt (n s : Nat) (hs : 1 ≤ s) : ∀ i ∈ passageStarts n s, i < n := by
  intro i hi
  rw [passageStarts, List.mem_range'] at hi
  obtain ⟨j, hj, hij⟩ := hi
  rcases Nat.eq_zero_or_pos n with hn | hn
  · subst hn
    have h0 : (0 + s - 1) / s = 0 := Nat.div_eq_of_lt (by omega)
    rw [h0] at hj
    omega
  · have h2 : (j + 1) * s ≤ ((n + s - 1) / s) * s := Nat.mul_le_mul_right s hj
    have h3 : ((n + s - 1) / s) * s ≤ n + s - 1 := Nat.div_mul_le_self _ _
    have h5 : j * s + s ≤ n + s - 1 := by
      rw [Nat.succ_mul] at h2
      omega
    have hc : s * j = j * s := Nat.mul_comm s j
    omega

theorem passagesGo_all_lt (tokenize : List String → List String) (passagelen : Nat)
    (doc : List String) : ∀ (l : List Nat) (acc : List (List String)),
    (∀ i ∈ l, i < doc.length) →
    passagesGo tokenize passagelen doc l acc
      = .ok (acc ++ l.map (fun i => tokenize ((doc.drop i).take passagelen))) := by
  intro l
  induction l with
  | nil =>
    intro acc _
    rw [passagesGo, List.map_nil, List.append_nil]
  | cons i rest ih =>
    intro acc hlt
    rw [passagesGo, if_neg (by push_neg; exact hlt i (List.mem_cons_self i rest)),
      ih _ (fun j hj => hlt j (List.mem_cons_of_mem i hj)), List.map_cons]
    simp

theorem buildPassages_eq_real (tokenize : List String → List String) (passagelen stride : Nat)
    (doc : List String) (hs : 1 ≤ stride) :
    buildPassages tokenize passagelen stride doc
      = .ok (realPassages tokenize passagelen stride doc) := by
  rw [buildPassages, if_neg (by omega), realPassages,
    passagesGo_all_lt tokenize passagelen doc _ [] (passageStarts_lt doc.length stride hs),
    List.nil_append]

theorem get_passages_of_build_ok (tokenize : List String → List String)
    (numpassages passagelen stride : Nat)
    (sample : Nat → List (List String) → List (List String))
    (doc : List String) (passages : List (List String))
    (hb : buildPassages tokenize passagelen stride doc = .ok passages) :
    get_passages_for_doc tokenize numpassages passagelen stride sample doc
      = selectAndCheck numpassages sample passages := by
  rw [get_passages_for_doc, hb]

/-- C3 (code bug): for an empty document, `get_passages_for_doc` does *not*
fail the `assert len(passages) > 0` (its guard `i >= len(doc)` is unreachable
inside `for i in range(0, len(doc), stride)`, whose iteration set is empty for
an empty doc); instead it returns `numpassages` all-padding passages. Shown at
the default config (numpassages 16, passagelen 150, stride 100). -/
theorem get_passages_empty_doc_returns_padding :
    get_passages_for_doc (fun l => l) 16 150 100 (fun k l => l.take k) []
      = .ok (List.replicate 16 ["[PAD]"]) := by
  rfl

theorem realPassages_short (tokenize : List String → List String) (passagelen stride : Nat)
    (doc : List String) (hne : doc ≠ []) (hst : doc.length ≤ stride)
    (hpl : doc.length ≤ passagelen) :
    realPassages tokenize passagelen stride doc = [tokenize doc] := by
  have hlen : 1 ≤ doc.length := List.length_pos.mpr hne
  have hdiv : (doc.length + stride - 1) / stride = 1 := by
    have hlo : 1 * stride ≤ doc.length + stride - 1 := by omega
    have hhi : doc.length + stride - 1 < (1 + 1) * stride := by omega
    exact Nat.div_eq_of_lt_le hlo hhi
  rw [realPassages, passageStarts, hdiv, List.range'_one, List.map_cons, List.map_nil,
    List.drop_zero, List.take_of_length_le hpl]

/-- C5 (amended): with at least 2 configured passages, a positive stride and a
`random.sample` that returns the requested number of elements from its
population, `get_passages_for_doc` always returns exactly `numpassages`
passages; when the document yields more real passages than `numpassages`, the
result is real passage 0, verbatim, then `numpassages - 2` passages sampled
from the interior, then the last real passage, verbatim; when the document is
nonempty and no longer than the stride and the window, the result is the one
real passage followed by `numpassages - 1` padding passages. -/
theorem get_passages_for_doc_spec (tokenize : List String → List String)
    (numpassages passagelen stride : Nat)
    (sample : Nat → List (List String) → List (List String)) (doc : List String)
    (hs : 1 ≤ stride) (hnp : 2 ≤ numpassages)
    (hsample : ∀ (k : Nat) (l : List (List String)), k ≤ l.length →
      (sample k l).length = k ∧ ∀ x ∈ sample k l, x ∈ l) :
    ∃ out, get_passages_for_doc tokenize numpassages passagelen stride sample doc = .ok out
      ∧ out.length = numpassages
      ∧ (numpassages < (realPassages tokenize passagelen stride doc).length →
          out = (realPassages tokenize passagelen stride doc).take 1
            ++ sample (numpassages - 2)
                (((realPassages tokenize passagelen stride doc).drop 1).dropLast)
            ++ (realPassages tokenize passagelen stride doc).drop
                ((realPassages tokenize passagelen stride doc).length - 1)
          ∧ (sample (numpassages - 2)
              (((realPassages tokenize passagelen stride doc).drop 1).dropLast)).length
                = numpassages - 2
          ∧ (∀ x ∈ sample (numpassages - 2)
              (((realPassages tokenize passagelen stride doc).drop 1).dropLast),
              x ∈ ((realPassages tokenize passagelen stride doc).drop 1).dropLast))
      ∧ (doc ≠ [] → doc.length ≤ stride → doc.length ≤ passagelen →
          out = tokenize doc :: List.replicate (numpassages - 1) ["[PAD]"]) := by
  have hstep := get_passages_of_build_ok tokenize numpassages passagelen stride sample doc
    (realPassages tokenize passagelen stride doc)
    (buildPassages_eq_real tokenize passagelen stride doc hs)
  set real := realPassages tokenize passagelen stride doc with hreal
  by_cases hover : numpassages < real.length
  · -- too many passages: subsample the interior
    have hint : ((real.drop 1).dropLast).length = real.length - 2 := by
      rw [List.length_dropLast, List.length_drop]
      omega
    have hk : numpassages - 2 ≤ ((real.drop 1).dropLast).length := by omega
    obtain ⟨hslen, hsmem⟩ := hsample (numpassages - 2) ((real.drop 1).dropLast) hk
    set out := real.take 1 ++ sample (numpassages - 2) ((real.drop 1).dropLast)
      ++ real.drop (real.length - 1) with hout
    have hlen : out.length = numpassages := by
      rw [hout, List.length_append, List.length_append, List.length_take, List.length_drop,
        hslen]
      omega
    refine ⟨out, ?_, hlen, fun _ => ⟨rfl, hslen, hsmem⟩, ?_⟩
    · rw [hstep, selectAndCheck]
      simp only [if_pos hover, if_neg (by omega : ¬ numpassages < 2)]
      rw [if_pos hlen]
    · intro hne hst hpl
      exfalso
      have h1 : real = [tokenize doc] := realPassages_short tokenize passagelen stride doc
        hne hst hpl
      rw [h1] at hover
      simp at hover
      omega
  · -- not enough passages: pad
    set out := real ++ List.replicate (numpassages - real.length) ["[PAD]"] with hout
    have hlen : out.length = numpassages := by
      rw [hout, List.length_append, List.length_replicate]
      omega
    refine ⟨out, ?_, hlen, fun h => absurd h hover, ?_⟩
    · rw [hstep, selectAndCheck]
      simp only [if_neg hover]
      rw [if_pos hlen]
    · intro hne hst hpl
      have h1 : real = [tokenize doc] := realPassages_short tokenize passagelen stride doc
        hne hst hpl
      rw [hout, h1]
      simp

/-- Witness for the amended C5 at a concrete document and config. -/
theorem get_passages_for_doc_spec_witness :
    ∃ out, get_passages_for_doc (fun l => l) 2 1 1 (fun k l => l.take k) ["a", "b", "c"]
        = .ok out
      ∧ out.length = 2
      ∧ (2 < (realPassages (fun l => l) 1 1 ["a", "b", "c"]).length →
          out = (realPassages (fun l => l) 1 1 ["a", "b", "c"]).take 1
            ++ (fun (k : Nat) (l : List (List String)) => l.take k) 0
                (((realPassages (fun l => l) 1 1 ["a", "b", "c"]).drop 1).dropLast)
            ++ (realPassages (fun l => l) 1 1 ["a", "b", "c"]).drop
                ((realPassages (fun l => l) 1 1 ["a", "b", "c"]).length - 1)
          ∧ ((fun (k : Nat) (l : List (List String)) => l.take k) 0
              (((realPassages (fun l => l) 1 1 ["a", "b", "c"]).drop 1).dropLast)).length = 0
          ∧ (∀ x ∈ (fun (k : Nat) (l : List (List String)) => l.take k) 0
              (((realPassages (fun l => l) 1 1 ["a", "b", "c"]).drop 1).dropLast),
              x ∈ ((realPassages (fun l => l) 1 1 ["a", "b", "c"]).drop 1).dropLast))
      ∧ ((["a", "b", "c"] : List String) ≠ [] → (["a", "b", "c"] : List String).length ≤ 1 →
          (["a", "b", "c"] : List String).length ≤ 1 →
          out = (fun (l : List String) => l) ["a", "b", "c"] :: List.replicate 1 ["[PAD]"]) :=
  get_passages_for_doc_spec (fun l => l) 2 1 1 (fun k l => l.take k) ["a", "b", "c"]
    (by decide) (by decide)
    (fun k l hk => ⟨List.length_take_of_le hk, fun x hx => List.take_subset k l hx⟩)

/-- C5 counterexample for the claim as stated: the document ["a", "b"] is
shorter than one window (passagelen 3) but, with stride 1, yields *two* real
passages, so the result is not one real passage followed by padding; and the
empty document (also shorter than one window) yields no real passage at all. -/
theorem get_passages_short_doc_counterexample :
    get_passages_for_doc (fun l => l) 4 3 1 (fun k l => l.take k) ["a", "b"]
      = .ok [["a", "b"], ["b"], ["[PAD]"], ["[PAD]"]]
    ∧ ¬ get_passages_for_doc (fun l => l) 4 3 1 (fun k l => l.take k) ["a", "b"]
        = .ok (["a", "b"] :: List.replicate 3 ["[PAD]"])
    ∧ (["a", "b"] : List String).length < 3
    ∧ get_passages_for_doc (fun l => l) 4 3 1 (fun k l => l.take k) []
      = .ok (List.replicate 4 ["[PAD]"]) := by
  refine ⟨rfl, ?_, by decide, rfl⟩
  intro h
  exact absurd (Except.ok.inj h) (by decide)

/-! ## Feature construction (`BertPassage.id2vec`) -/

/-- Modelled from the spec: `capreolus.utils.common.padlist` (the repository
file `capreolus/utils/common.py` is not under src/), used by `id2vec` after
truncation — "then right-padded to `maxseqlen`". -/
def padlist (input_line : List String) (padlen : Nat) (pad_token : String) : List String :=
  input_line ++ List.replicate (padlen - input_line.length) pad_token

/-- The raw per-passage sequence `["[CLS]"] + query_toks + ["[SEP]"] + tokenized_passage + ["[SEP]"]`. -/
def bertLine (query_toks passage : List String) : List String :=
  ["[CLS]"] ++ query_toks ++ ["[SEP]"] ++ passage ++ ["[SEP]"]

/-- `if len(input_line) > maxseqlen: input_line = input_line[:maxseqlen];
input_line[-1] = "[SEP]"`. -/
def truncLine (maxseqlen : Nat) (line : List String) : List String :=
  if maxseqlen < line.length then (line.take maxseqlen).set (maxseqlen - 1) "[SEP]" else line

/-- Per-passage loop body of `id2vec`: token ids (via the tokenizer's
`convert_tokens_to_ids`, the `tok2id` parameter), attention mask, and segment
ids. -/
def encodePassage (tok2id : String → Nat) (maxseqlen : Nat)
    (query_toks passage : List String) : List Nat × List Nat × List Nat :=
  let input_line := truncLine maxseqlen (bertLine query_toks passage)
  let padded_input_line := padlist input_line maxseqlen "[PAD]"
  (padded_input_line.map tok2id,
   List.replicate input_line.length 1
     ++ List.replicate (padded_input_line.length - input_line.length) 0,
   List.replicate (query_toks.length + 2) 0
     ++ List.replicate (padded_input_line.length - query_toks.length - 2) 1)

/-- The dict returned by `BertPassage.id2vec`. -/
structure BertData where
  posdocid : String
  posdoc : List (List Nat)
  posdoc_mask : List (List Nat)
  posdoc_seg : List (List Nat)
  negdocid : String
  negdoc : List (List Nat)
  negdoc_mask : List (List Nat)
  negdoc_seg : List (List Nat)
  label : List (List Int)
deriving DecidableEq

/-- Python truthiness of the `negid` argument (`if negid:`): false for `None`
and for the empty string. -/
def pyTruthy : Option String → Bool
  | none => false
  | some s => decide (¬ s = "")

/-- `BertPassage.id2vec`. The `qid2toks` / `docid2passages` state built by
`preprocess` is passed as functions; `label` is the caller-supplied two-slot
label, repeated per passage; with a truthy `negid` whose passage list is
empty, `MissingDocError(qid, negid)` is raised. -/
def id2vec (tok2id : String → Nat) (numpassages maxseqlen : Nat)
    (qid2toks : String → List String) (docid2passages : String → List (List String))
    (qid posid : String) (negid : Option String) (label : List Int) :
    Except MissingDoc BertData :=
  let query_toks := qid2toks qid
  let pos_enc := (docid2passages posid).map (encodePassage tok2id maxseqlen query_toks)
  let data : BertData :=
    { posdocid := posid
      posdoc := pos_enc.map (fun e => e.1)
      posdoc_mask := pos_enc.map (fun e => e.2.1)
      posdoc_seg := pos_enc.map (fun e => e.2.2)
      negdocid := ""
      negdoc := List.replicate numpassages (List.replicate maxseqlen 0)
      negdoc_mask := List.replicate numpassages (List.replicate maxseqlen 0)
      negdoc_seg := List.replicate numpassages (List.replicate maxseqlen 0)
      label := List.replicate numpassages label }
  if pyTruthy negid then
    let nid := negid.getD ""
    let neg_enc := (docid2passages nid).map (encodePassage tok2id maxseqlen query_toks)
    if neg_enc.isEmpty then .error ⟨qid, nid⟩
    else
      .ok { data with
        negdocid := nid
        negdoc := neg_enc.map (fun e => e.1)
        negdoc_mask := neg_enc.map (fun e => e.2.1)
        negdoc_seg := neg_enc.map (fun e => e.2.2) }
  else .ok data

/-- Shape predicate: a tensor of exactly `r` rows, each of exactly `c` entries. -/
def tensorShape (t : List (List Nat)) (r c : Nat) : Prop :=
  t.length = r ∧ ∀ row ∈ t, row.length = c

/-- Mask-sum predicate: each attention-mask row sums to the untruncated
sequence length capped at `maxseqlen`. -/
def maskSums (masks : List (List Nat)) (query_toks : List String)
    (passages : List (List String)) (maxseqlen : Nat) : Prop :=
  ∀ pr ∈ masks.zip passages, pr.1.sum = min (bertLine query_toks pr.2).length maxseqlen

theorem truncLine_length (maxseqlen : Nat) (line : List String) :
    (truncLine maxseqlen line).length = min line.length maxseqlen := by
  rw [truncLine]
  by_cases h : maxseqlen < line.length
  · rw [if_pos h, List.length_set, List.length_take]
    omega
  · rw [if_neg h]
    omega

theorem encodePassage_spec (tok2id : String → Nat) (maxseqlen : Nat)
    (query_toks passage : List String) (hq : query_toks.length + 2 ≤ maxseqlen) :
    (encodePassage tok2id maxseqlen query_toks passage).1.length = maxseqlen
    ∧ (encodePassage tok2id maxseqlen query_toks passage).2.1.length = maxseqlen
    ∧ (encodePassage tok2id maxseqlen query_toks passage).2.2.length = maxseqlen
    ∧ (encodePassage tok2id maxseqlen query_toks passage).2.1.sum
        = min (bertLine query_toks passage).length maxseqlen := by
  have hinp := truncLine_length maxseqlen (bertLine query_toks passage)
  have hle : (truncLine maxseqlen (bertLine query_toks passage)).length ≤ maxseqlen := by
    omega
  have hpad : (padlist (truncLine maxseqlen (bertLine query_toks passage)) maxseqlen
      "[PAD]").length = maxseqlen := by
    rw [padlist, List.length_append, List.length_replicate]
    omega
  refine ⟨?_, ?_, ?_, ?_⟩
  · show ((padlist (truncLine maxseqlen (bertLine query_toks passage)) maxseqlen
        "[PAD]").map tok2id).length = maxseqlen
    rw [List.length_map]
    exact hpad
  · show (List.replicate (truncLine maxseqlen (bertLine query_toks passage)).length 1
        ++ List.replicate ((padlist (truncLine maxseqlen (bertLine query_toks passage))
            maxseqlen "[PAD]").length
          - (truncLine maxseqlen (bertLine query_toks passage)).length) 0).length = maxseqlen
    rw [List.length_append, List.length_replicate, List.length_replicate, hpad]
    omega
  · show (List.replicate (query_toks.length + 2) 0
        ++ List.replicate ((padlist (truncLine maxseqlen (bertLine query_toks passage))
            maxseqlen "[PAD]").length - query_toks.length - 2) 1).length = maxseqlen
    rw [List.length_append, List.length_replicate, List.length_replicate, hpad]
    omega
  · show (List.replicate (truncLine maxseqlen (bertLine query_toks passage)).length 1
        ++ List.replicate ((padlist (truncLine maxseqlen (bertLine query_toks passage))
            maxseqlen "[PAD]").length
          - (truncLine maxseqlen (bertLine query_toks passage)).length) 0).sum
        = min (bertLine query_toks passage).length maxseqlen
    rw [List.sum_append, List.sum_replicate, List.sum_replicate, smul_eq_mul, smul_eq_mul]
    omega

theorem zip_map_self {α β : Type} (f : α → β) (l : List α) :
    (l.map f).zip l = l.map (fun x => (f x, x)) := by
  induction l with
  | nil => rfl
  | cons a rest ih => rw [List.map_cons, List.map_cons, List.zip_cons_cons, ih]

theorem id2vec_with_neg (tok2id : String → Nat) (numpassages maxseqlen : Nat)
    (qid2toks : String → List String) (docid2passages : String → List (List String))
    (qid posid : String) (negid : Option String) (label : List Int)
    (htr : pyTruthy negid = true) (hne2 : docid2passages (negid.getD "") ≠ []) :
    id2vec tok2id numpassages maxseqlen qid2toks docid2passages qid posid negid label
      = .ok
        { posdocid := posid
          posdoc := ((docid2passages posid).map
            (encodePassage tok2id maxseqlen (qid2toks qid))).map (fun e => e.1)
          posdoc_mask := ((docid2passages posid).map
            (encodePassage tok2id maxseqlen (qid2toks qid))).map (fun e => e.2.1)
          posdoc_seg := ((docid2passages posid).map
            (encodePassage tok2id maxseqlen (qid2toks qid))).map (fun e => e.2.2)
          negdocid := negid.getD ""
          negdoc := ((docid2passages (negid.getD "")).map
            (encodePassage tok2id maxseqlen (qid2toks qid))).map (fun e => e.1)
          negdoc_mask := ((docid2passages (negid.getD "")).map
            (encodePassage tok2id maxseqlen (qid2toks qid))).map (fun e => e.2.1)
          negdoc_seg := ((docid2passages (negid.getD "")).map
            (encodePassage tok2id maxseqlen (qid2toks qid))).map (fun e => e.2.2)
          label := List.replicate numpassages label } := by
  have hie : (((docid2passages (negid.getD "")).map
      (encodePassage tok2id maxseqlen (qid2toks qid))).isEmpty) = false := by
    cases hcase : docid2passages (negid.getD "") with
    | nil => exact absurd hcase hne2
    | cons a rest => rfl
  simp [id2vec, htr, hie]

theorem id2vec_without_neg (tok2id : String → Nat) (numpassages maxseqlen : Nat)
    (qid2toks : String → List String) (docid2passages : String → List (List String))
    (qid posid : String) (negid : Option String) (label : List Int)
    (hf : pyTruthy negid = false) :
    id2vec tok2id numpassages maxseqlen qid2toks docid2passages qid posid negid label
      = .ok
        { posdocid := posid
          posdoc := ((docid2passages posid).map
            (encodePassage tok2id maxseqlen (qid2toks qid))).map (fun e => e.1)
          posdoc_mask := ((docid2passages posid).map
            (encodePassage tok2id maxseqlen (qid2toks qid))).map (fun e => e.2.1)
          posdoc_seg := ((docid2passages posid).map
            (encodePassage tok2id maxseqlen (qid2toks qid))).map (fun e => e.2.2)
          negdocid := ""
          negdoc := List.replicate numpassages (List.replicate maxseqlen 0)
          negdoc_mask := List.replicate numpassages (List.replicate maxseqlen 0)
          negdoc_seg := List.replicate numpassages (List.replicate maxseqlen 0)
          label := List.replicate numpassages label } := by
  simp [id2vec, hf]

theorem enc_shape (tok2id : String → Nat) (maxseqlen : Nat) (qt : List String)
    (passages : List (List String)) (numpassages : Nat) (hlen : passages.length = numpassages)
    (proj : List Nat × List Nat × List Nat → List Nat)
    (hproj : ∀ p : List String, (proj (encodePassage tok2id maxseqlen qt p)).length = maxseqlen) :
    tensorShape ((passages.map (encodePassage tok2id maxseqlen qt)).map proj)
      numpassages maxseqlen := by
  constructor
  · rw [List.length_map, List.length_map, hlen]
  · intro row hrow
    rw [List.map_map, List.mem_map] at hrow
    obtain ⟨p, _, hpe⟩ := hrow
    rw [← hpe]
    exact hproj p

theorem enc_maskSums (tok2id : String → Nat) (maxseqlen : Nat) (qt : List String)
    (passages : List (List String)) (hq : qt.length + 2 ≤ maxseqlen) :
    maskSums ((passages.map (encodePassage tok2id maxseqlen qt)).map (fun e => e.2.1))
      qt passages maxseqlen := by
  intro pr hpr
  rw [List.map_map, zip_map_self, List.mem_map] at hpr
  obtain ⟨p, _, hpe⟩ := hpr
  rw [← hpe]
  simpa using (encodePassage_spec tok2id maxseqlen qt p hq).2.2.2

/-- C6: for every (query, positive doc, negative doc) triple with a present
negative, `id2vec` succeeds and returns token-id, mask and segment tensors of
shape exactly [numpassages, maxseqlen] for both documents; each per-passage
sequence is `[CLS] + query + [SEP] + passage + [SEP]`, truncated to
`maxseqlen` with the last token forced to `[SEP]`, then right-padded; and each
mask row sums to `min(len(raw_input_line), maxseqlen)`. Queries are bounded by
the config's `maxqlen` (4) so `len(query) + 2 ≤ maxseqlen` (256) holds. -/
theorem id2vec_shapes_and_masks (tok2id : String → Nat) (numpassages maxseqlen : Nat)
    (qid2toks : String → List String) (docid2passages : String → List (List String))
    (qid posid nid : String) (label : List Int)
    (hq : (qid2toks qid).length + 2 ≤ maxseqlen)
    (hpos : (docid2passages posid).length = numpassages)
    (hneg : (docid2passages nid).length = numpassages)
    (hnp : 0 < numpassages) (hnid : ¬ nid = "") :
    ∃ d, id2vec tok2id numpassages maxseqlen qid2toks docid2passages qid posid (some nid) label
        = .ok d
      ∧ tensorShape d.posdoc numpassages maxseqlen
      ∧ tensorShape d.posdoc_mask numpassages maxseqlen
      ∧ tensorShape d.posdoc_seg numpassages maxseqlen
      ∧ tensorShape d.negdoc numpassages maxseqlen
      ∧ tensorShape d.negdoc_mask numpassages maxseqlen
      ∧ tensorShape d.negdoc_seg numpassages maxseqlen
      ∧ d.posdoc = (docid2passages posid).map (fun p =>
          (padlist (truncLine maxseqlen (bertLine (qid2toks qid) p)) maxseqlen "[PAD]").map
            tok2id)
      ∧ maskSums d.posdoc_mask (qid2toks qid) (docid2passages posid) maxseqlen
      ∧ maskSums d.negdoc_mask (qid2toks qid) (docid2passages nid) maxseqlen := by
  have hne2 : docid2passages ((some nid).getD "") ≠ [] := by
    intro hcon
    have hcon2 : docid2passages nid = [] := hcon
    rw [hcon2] at hneg
    simp at hneg
    omega
  have hres := id2vec_with_neg tok2id numpassages maxseqlen qid2toks docid2passages qid posid
    (some nid) label (by simp [pyTruthy, hnid]) hne2
  rw [Option.getD_some] at hres
  refine ⟨_, hres, ?_, ?_, ?_, ?_, ?_, ?_, ?_, ?_, ?_⟩
  · exact enc_shape tok2id maxseqlen (qid2toks qid) (docid2passages posid) numpassages hpos
      (fun e => e.1) (fun p => (encodePassage_spec tok2id maxseqlen (qid2toks qid) p hq).1)
  · exact enc_shape tok2id maxseqlen (qid2toks qid) (docid2passages posid) numpassages hpos
      (fun e => e.2.1) (fun p => (encodePassage_spec tok2id maxseqlen (qid2toks qid) p hq).2.1)
  · exact enc_shape tok2id maxseqlen (qid2toks qid) (docid2passages posid) numpassages hpos
      (fun e => e.2.2)
      (fun p => (encodePassage_spec tok2id maxseqlen (qid2toks qid) p hq).2.2.1)
  · exact enc_shape tok2id maxseqlen (qid2toks qid) (docid2passages nid) numpassages hneg
      (fun e => e.1) (fun p => (encodePassage_spec tok2id maxseqlen (qid2toks qid) p hq).1)
  · exact enc_shape tok2id maxseqlen (qid2toks qid) (docid2passages nid) numpassages hneg
      (fun e => e.2.1) (fun p => (encodePassage_spec tok2id maxseqlen (qid2toks qid) p hq).2.1)
  · exact enc_shape tok2id maxseqlen (qid2toks qid) (docid2passages nid) numpassages hneg
      (fun e => e.2.2)
      (fun p => (encodePassage_spec tok2id maxseqlen (qid2toks qid) p hq).2.2.1)
  · rw [List.map_map]
    rfl
  · exact enc_maskSums tok2id maxseqlen (qid2toks qid) (docid2passages posid) hq
  · exact enc_maskSums tok2id maxseqlen (qid2toks qid) (docid2passages nid) hq

/-- Witness for C6 at a concrete query, document and config. -/
theorem id2vec_shapes_and_masks_witness :
    ∃ d, id2vec (fun _ => 0) 1 3 (fun _ => []) (fun _ => [["x"]]) "q" "p" (some "n") [1, 0]
        = .ok d
      ∧ tensorShape d.posdoc 1 3
      ∧ tensorShape d.posdoc_mask 1 3
      ∧ tensorShape d.posdoc_seg 1 3
      ∧ tensorShape d.negdoc 1 3
      ∧ tensorShape d.negdoc_mask 1 3
      ∧ tensorShape d.negdoc_seg 1 3
      ∧ d.posdoc = ([["x"]] : List (List String)).map (fun p =>
          (padlist (truncLine 3 (bertLine [] p)) 3 "[PAD]").map (fun _ => 0))
      ∧ maskSums d.posdoc_mask [] [["x"]] 3
      ∧ maskSums d.negdoc_mask [] [["x"]] 3 :=
  id2vec_shapes_and_masks (fun _ => 0) 1 3 (fun _ => []) (fun _ => [["x"]]) "q" "p" "n"
    [1, 0] (by decide) (by decide) (by decide) (by decide) (by decide)

/-! ## `KerasModel.call` (`capreolus/reranker/base.py`) -/

/-- The two shapes of a `KerasModel.call` result: a positive-only score or a
stacked (positive, negative) pair of scores. -/
inductive KerasOut (α : Type) where
  | single (pos : α)
  | pair (pos neg : α)
deriving DecidableEq

/-- Whether only the positive document was scored. -/
def KerasOut.isSingle {α : Type} : KerasOut α → Bool
  | .single _ => true
  | .pair _ _ => false

/-- `tf.math.count_nonzero` over a [numpassages, maxseqlen] token tensor. -/
def countNonzero (t : List (List Nat)) : Nat :=
  (t.map (fun row => (row.filter (fun x => decide (¬ x = 0))).length)).sum

/-- `KerasModel.call`: score only the positive document exactly when the
negdoc tensor has no nonzero entry, else score the (positive, negative) pair. -/
def kerasCall {α : Type} (model : List (List Nat) → List (List Nat) → α)
    (posdoc negdoc query : List (List Nat)) : KerasOut α :=
  if countNonzero negdoc = 0 then .single (model posdoc query)
  else .pair (model posdoc query) (model negdoc query)

theorem countNonzero_zeros (n m : Nat) :
    countNonzero (List.replicate n (List.replicate m 0)) = 0 := by
  have hrow : ∀ (k : Nat), (List.replicate k (0 : Nat)).filter (fun x => decide (¬ x = 0))
      = [] := by
    intro k
    induction k with
    | zero => rfl
    | succ j ih =>
      rw [List.replicate_succ, List.filter_cons]
      simp [ih]
  rw [countNonzero, List.map_replicate, hrow, List.length_nil, List.sum_replicate,
    smul_eq_mul, Nat.mul_zero]

/-- C10: with no negative doc id (`negid` `None` or the empty string),
`id2vec` returns `negdocid = ""` and all-zero negdoc/mask/seg tensors of shape
[numpassages, maxseqlen]; `KerasModel.call` on such a negdoc scores only the
positive document, and in general it scores only the positive document exactly
when its negdoc input has zero nonzero entries. -/
theorem id2vec_falsy_negid_and_keras_call {α : Type} (tok2id : String → Nat)
    (numpassages maxseqlen : Nat) (qid2toks : String → List String)
    (docid2passages : String → List (List String)) (qid posid : String)
    (negid : Option String) (label : List Int)
    (model : List (List Nat) → List (List Nat) → α) (query : List (List Nat))
    (hf : pyTruthy negid = false) :
    ∃ d, id2vec tok2id numpassages maxseqlen qid2toks docid2passages qid posid negid label
        = .ok d
      ∧ d.negdocid = ""
      ∧ d.negdoc = List.replicate numpassages (List.replicate maxseqlen 0)
      ∧ d.negdoc_mask = List.replicate numpassages (List.replicate maxseqlen 0)
      ∧ d.negdoc_seg = List.replicate numpassages (List.replicate maxseqlen 0)
      ∧ kerasCall model d.posdoc d.negdoc query = .single (model d.posdoc query)
      ∧ (∀ neg : List (List Nat),
          (kerasCall model d.posdoc neg query).isSingle = decide (countNonzero neg = 0)) := by
  refine ⟨_, id2vec_without_neg tok2id numpassages maxseqlen qid2toks docid2passages qid posid
    negid label hf, rfl, rfl, rfl, rfl, ?_, ?_⟩
  · rw [kerasCall, if_pos (countNonzero_zeros numpassages maxseqlen)]
  · intro neg
    rw [kerasCall]
    by_cases h : countNonzero neg = 0
    · rw [if_pos h]
      simp [KerasOut.isSingle, h]
    · rw [if_neg h]
      simp [KerasOut.isSingle, h]

/-- Witness for C10 at a concrete input (`negid = none`). -/
theorem id2vec_falsy_negid_and_keras_call_witness :
    ∃ d, id2vec (fun _ => 0) 1 3 (fun _ => []) (fun _ => [["x"]]) "q" "p" none [0, 1]
        = .ok d
      ∧ d.negdocid = ""
      ∧ d.negdoc = List.replicate 1 (List.replicate 3 0)
      ∧ d.negdoc_mask = List.replicate 1 (List.replicate 3 0)
      ∧ d.negdoc_seg = List.replicate 1 (List.replicate 3 0)
      ∧ kerasCall (fun a _ => a) d.posdoc d.negdoc ([] : List (List Nat))
          = .single ((fun (a _ : List (List Nat)) => a) d.posdoc ([] : List (List Nat)))
      ∧ (∀ neg : List (List Nat),
          (kerasCall (fun a _ => a) d.posdoc neg ([] : List (List Nat))).isSingle
            = decide (countNonzero neg = 0)) :=
  id2vec_falsy_negid_and_keras_call (fun _ => 0) 1 3 (fun _ => []) (fun _ => [["x"]])
    "q" "p" none [0, 1] (fun a _ => a) ([] : List (List Nat)) (by decide)

/-! ## Weight persistence (`Reranker.save_weights` / `Reranker.load_weights`) -/

/-- Python's substring test `needle in hay`: the needle's character list
occurs contiguously at some offset of the hay's character list. -/
def pySubstr (needle hay : String) : Bool :=
  (List.range (hay.toList.length + 1)).any
    (fun i => decide ((hay.toList.drop i).take needle.toList.length = needle.toList))

/-- A state-dict key is persisted iff it contains neither "embedding.weight"
nor "_nosave_" (`save_weights`'s comprehension and `load_weights`'s
`cur_keys`). -/
def persistKey (k : String) : Bool :=
  !(pySubstr "embedding.weight" k) && !(pySubstr "_nosave_" k)

/-- `Reranker.save_weights`: the dict pickled to the weights file. -/
def save_weights {V : Type} (state_dict : List (String × V)) : List (String × V) :=
  state_dict.filter (fun p => persistKey p.1)

/-- `self.model.load_state_dict(d, strict=False)`: entries of the current
state dict whose key occurs in `d` take the persisted value. -/
def loadStateDict {V : Type} (model_state : List (String × V)) (d : List (String × V)) :
    List (String × V) :=
  model_state.map (fun p =>
    match alookup d p.1 with
    | some v => (p.1, v)
    | none => p)

/-- `Reranker.load_weights`: raise `RuntimeError` when some expected key
(after excluding "embedding.weight"/"_nosave_" keys) is missing from the
persisted dict; the raise happens before `load_state_dict` runs, so no state
is loaded on error. -/
def load_weights {V : Type} (model_state : List (String × V))
    (persisted : List (String × V)) : Except String (List (String × V)) :=
  let cur_keys := (model_state.map Prod.fst).filter persistKey
  let missing := cur_keys.filter (fun k => decide (¬ k ∈ persisted.map Prod.fst))
  if missing.isEmpty then .ok (loadStateDict model_state persisted)
  else .error "loading state_dict with keys that do not match current model"

/-- C9: `save_weights` persists exactly the state-dict entries whose key
contains neither "embedding.weight" nor "_nosave_"; `load_weights` fails iff
some key the current model expects (after the same exclusions) is absent from
the persisted dict, and a loaded state is produced only in the non-error
case. -/
theorem save_load_weights_spec {V : Type} (state_dict model_state persisted :
    List (String × V)) :
    (∀ p : String × V, p ∈ save_weights state_dict ↔ p ∈ state_dict
        ∧ pySubstr "embedding.weight" p.1 = false ∧ pySubstr "_nosave_" p.1 = false)
    ∧ ((∃ e, load_weights model_state persisted = .error e)
        ↔ ∃ k ∈ model_state.map Prod.fst, persistKey k = true
            ∧ ¬ k ∈ persisted.map Prod.fst)
    ∧ (∀ st, load_weights model_state persisted = .ok st
        → st = loadStateDict model_state persisted) := by
  refine ⟨?_, ?_, ?_⟩
  · intro p
    rw [save_weights, List.mem_filter, persistKey]
    constructor
    · intro ⟨h1, h2⟩
      simp only [Bool.and_eq_true, Bool.not_eq_true'] at h2
      exact ⟨h1, h2.1, h2.2⟩
    · intro ⟨h1, h2, h3⟩
      refine ⟨h1, ?_⟩
      simp only [Bool.and_eq_true, Bool.not_eq_true']
      exact ⟨h2, h3⟩
  · rw [load_weights]
    by_cases hmiss : (((model_state.map Prod.fst).filter persistKey).filter
        (fun k => decide (¬ k ∈ persisted.map Prod.fst))).isEmpty
    · rw [if_pos hmiss]
      constructor
      · intro ⟨e, he⟩
        exact absurd he (by simp)
      · intro ⟨k, hk, hpk, hnk⟩
        exfalso
        rw [List.isEmpty_iff] at hmiss
        have hkin : k ∈ ((model_state.map Prod.fst).filter persistKey).filter
            (fun x => decide (¬ x ∈ persisted.map Prod.fst)) := by
          rw [List.mem_filter, List.mem_filter]
          exact ⟨⟨hk, hpk⟩, by simpa using hnk⟩
        rw [hmiss] at hkin
        exact absurd hkin (List.not_mem_nil k)
    · rw [if_neg hmiss]
      constructor
      · intro _
        rw [List.isEmpty_iff] at hmiss
        obtain ⟨k, hkin⟩ := List.exists_mem_of_ne_nil _ hmiss
        rw [List.mem_filter, List.mem_filter] at hkin
        exact ⟨k, hkin.1.1, hkin.1.2, by simpa using hkin.2⟩
      · intro _
        exact ⟨"loading state_dict with keys that do not match current model", rfl⟩
  · intro st hst
    rw [load_weights] at hst
    by_cases hmiss : (((model_state.map Prod.fst).filter persistKey).filter
        (fun k => decide (¬ k ∈ persisted.map Prod.fst))).isEmpty
    · rw [if_pos hmiss] at hst
      exact (Except.ok.inj hst).symm
    · rw [if_neg hmiss] at hst
      exact absurd hst (by simp)
